import Mathlib

/-!
# Verification of `thermostat` dataset utilities

A shallow embedding of `src/thermostat/data/dataset_utils.py`.  Python code is
translated as follows: machine floats become rationals (`ℚ`), fallible Python
code (exceptions) returns `Except PyError`, Python dicts become insertion-ordered
association lists, and Python's stable `sorted(..., reverse=True)` becomes an
insertion sort with a reflexive-descending relation.  External collaborators
(the HuggingFace tokenizer and dataset loader) are opaque parameters, as the
specification treats them as opaque boundaries.
-/

namespace Thermostat

/-- The Python exception kinds raised by `dataset_utils.py`.  `assertionError`
and `valueError` carry the list of valid configuration names when the message
quotes `list_configs()`, and an empty list otherwise. -/
inductive PyError : Type where
  | assertionError (options : List String)
  | valueError (options : List String)
  | notImplementedError
  | attributeError
  | indexError
  | typeError
deriving DecidableEq, Repr

instance {ε α : Type} [DecidableEq ε] [DecidableEq α] : DecidableEq (Except ε α) := fun a b =>
  match a, b with
  | .ok x, .ok y => if h : x = y then .isTrue (by simp [h]) else .isFalse (by simp [h])
  | .error x, .error y => if h : x = y then .isTrue (by simp [h]) else .isFalse (by simp [h])
  | .ok _, .error _ => .isFalse (by simp)
  | .error _, .ok _ => .isFalse (by simp)

/-! ## Python primitives

Helpers with the semantics of the Python builtins used by the source:
`max`/`min` on a nonempty list, `str.split`, `str.join`, and the `in`
substring test. -/

/-- Python `max(list)` for a nonempty list (`0` on the empty list, on which
Python would raise; all uses in the source are on nonempty lists). -/
def pyMax (l : List ℚ) : ℚ :=
  match l with
  | [] => 0
  | a :: r => r.foldl max a

/-- Python `min(list)` for a nonempty list (`0` on the empty list). -/
def pyMin (l : List ℚ) : ℚ :=
  match l with
  | [] => 0
  | a :: r => r.foldl min a

/-- Split a character list on a nonempty separator character list, Python
`str.split(sep)` style: non-overlapping, left to right, keeping empty pieces.
Fuel-based so that the kernel can evaluate it; `fuel ≥ cs.length` suffices
because every step consumes at least one character. -/
def splitGo (sep : List Char) : Nat → List Char → List Char → List (List Char)
  | 0, acc, rest => [acc.reverse ++ rest]
  | _ + 1, acc, [] => [acc.reverse]
  | fuel + 1, acc, c :: rest =>
    if sep.isPrefixOf (c :: rest) then
      acc.reverse :: splitGo sep fuel [] ((c :: rest).drop sep.length)
    else
      splitGo sep fuel (c :: acc) rest

/-- Python `s.split(sub)` for a nonempty separator `sub` (Python raises on an
empty separator; the source only splits on `'-'`, `'\n'` and `"<Coordinate>: "`,
all nonempty). -/
def py_split (s : String) (sub : String) : List String :=
  if sub.toList = [] then [s]
  else (splitGo sub.toList s.toList.length [] s.toList).map (fun cs => String.mk cs)

/-- Python `sub.join(parts)`. -/
def py_join (sub : String) (parts : List String) : String :=
  String.mk (List.intercalate sub.toList (parts.map String.toList))

/-- Contiguous-sublist test on character lists. -/
def charInfix (sub : List Char) : List Char → Bool
  | [] => sub.isEmpty
  | c :: rest => sub.isPrefixOf (c :: rest) || charInfix sub rest

/-- Python `sub in s` substring test. -/
def py_contains (s : String) (sub : String) : Bool :=
  charInfix sub.toList s.toList

/-! ## Configuration registry boundary

`thermostat_configs.builder_configs` is an external registry; each entry
declares a name, the text column(s) and the canonical label-class ordering.
`text_column` is either a single string or a list of strings in Python
(`get_text_fields` tests `type(text_fields) != list`). -/

/-- A Python `text_column` value: either one string or a list of strings. -/
inductive TextColumn : Type where
  | single (s : String)
  | multi (l : List String)
deriving DecidableEq, Repr

/-- `if type(text_fields) != list: text_fields = [text_fields]` -/
def TextColumn.toFields : TextColumn → List String
  | .single s => [s]
  | .multi l => l

/-- One entry of `thermostat_configs.builder_configs`. -/
structure Config : Type where
  name : String
  text_column : TextColumn
  label_classes : List String
deriving DecidableEq, Repr

/-- `list_configs()`: the names of all available configs. -/
def list_configs (cfgs : List Config) : List String :=
  cfgs.map (fun c => c.name)

/-- `get_config(config_name)`: first registry entry with the given name,
`None` (here `none`) when absent. -/
def get_config (cfgs : List Config) (config_name : String) : Option Config :=
  cfgs.find? (fun x => x.name = config_name)

/-- `get_text_fields(config_name) = get_config(config_name).text_column` (with
the non-list case wrapped in a list).  When `get_config` returns `None` the
attribute access `None.text_column` raises `AttributeError`. -/
def get_text_fields (cfgs : List Config) (config_name : String) :
    Except PyError (List String) :=
  match get_config cfgs config_name with
  | none => .error .attributeError
  | some c => .ok c.text_column.toFields

/-! ## `load`

`load(config_str)` first asserts that `config_str` is truthy (`None` and the
empty string are falsy), then dispatches on full names, "dataset-model"
partial names, "dataset-explainer" partial names, and everything else.  The
HuggingFace `load_dataset` call is opaque; a successful load is modelled by
returning the configuration name. -/

/-- `'-'.join(c.split('-')[:2])`: the "dataset-model" partial identifier. -/
def dataset_model_partial (c : String) : String :=
  py_join "-" ((py_split c "-").take 2)

/-- `f'{c.split("-")[0]}-{c.split("-")[-1]}'`: the "dataset-explainer" partial
identifier. -/
def dataset_explainer_partial (c : String) : String :=
  (py_split c "-").headD "" ++ "-" ++ (py_split c "-").getLastD ""

/-- `load(config_str)`.  `.ok name` stands for the successfully loaded
`Thermopack`. -/
def load (cfgs : List Config) (config_str : Option String) : Except PyError String :=
  match config_str with
  | none => .error (.assertionError (list_configs cfgs))
  | some s =>
    if s = "" then .error (.assertionError (list_configs cfgs))
    else if s ∈ list_configs cfgs then .ok s
    else if s ∈ (list_configs cfgs).map dataset_model_partial then
      .error .notImplementedError
    else if s ∈ (list_configs cfgs).map dataset_explainer_partial then
      .error .notImplementedError
    else .error (.valueError (list_configs cfgs))

/-! ## A small demonstration registry, used for concrete witnesses. -/

/-- A registry with two configurations in the style of the real one. -/
def demoConfigs : List Config :=
  [⟨"multi_nli-bert-lig", .multi ["premise", "hypothesis"],
    ["entailment", "neutral", "contradiction"]⟩,
   ⟨"imdb-bert-lig", .single "text", ["neg", "pos"]⟩]

/-- C9 claim text, tested before proving: full names load. -/
example : load demoConfigs (some "imdb-bert-lig") = .ok "imdb-bert-lig" := by decide

example : dataset_model_partial "imdb-bert-lig" = "imdb-bert" := by decide

example : dataset_explainer_partial "imdb-bert-lig" = "imdb-lig" := by decide

example : load demoConfigs (some "imdb-bert") = .error .notImplementedError := by decide

example : load demoConfigs (some "imdb-lig") = .error .notImplementedError := by decide

example : load demoConfigs (some "nonsense") =
    .error (.valueError ["multi_nli-bert-lig", "imdb-bert-lig"]) := by decide

example : load demoConfigs (some "") =
    .error (.assertionError ["multi_nli-bert-lig", "imdb-bert-lig"]) := by decide

/-! ## Claims C9 and C10: configuration lookup and `load` dispatch -/

/-- **C9** (amended): for every *non-empty* configuration identifier string:
a known full name loads the dataset; a partial identifier (dataset-model or
dataset-explainer shaped, matching a known configuration) fails with an
explicit `NotImplementedError`, which is distinct from the configuration
error; any other non-empty string fails with a `ValueError` whose message
lists the valid configuration names.  (The empty or absent identifier
instead fails the leading truthiness assertion; see the counterexample.) -/
theorem C9_load_dispatch (cfgs : List Config) (s : String) (hs : s ≠ "") :
    (s ∈ list_configs cfgs → load cfgs (some s) = .ok s)
    ∧ (s ∉ list_configs cfgs →
        s ∈ (list_configs cfgs).map dataset_model_partial →
        load cfgs (some s) = .error .notImplementedError)
    ∧ (s ∉ list_configs cfgs →
        s ∉ (list_configs cfgs).map dataset_model_partial →
        s ∈ (list_configs cfgs).map dataset_explainer_partial →
        load cfgs (some s) = .error .notImplementedError)
    ∧ (s ∉ list_configs cfgs →
        s ∉ (list_configs cfgs).map dataset_model_partial →
        s ∉ (list_configs cfgs).map dataset_explainer_partial →
        load cfgs (some s) = .error (.valueError (list_configs cfgs)))
    ∧ (∀ opts, (Except.error PyError.notImplementedError : Except PyError String) ≠
        .error (.valueError opts)) := by
  refine ⟨fun h1 => by simp [load, hs, h1],
    fun h1 h2 => by simp [load, hs, h1, h2],
    fun h1 h2 h3 => by simp [load, hs, h1, h2, h3],
    fun h1 h2 h3 => by simp [load, hs, h1, h2, h3],
    fun opts => by simp⟩

/-- Witness for C9: the full name `"imdb-bert-lig"` loads. -/
theorem C9_load_dispatch_witness :
    load demoConfigs (some "imdb-bert-lig") = .ok "imdb-bert-lig" :=
  (C9_load_dispatch demoConfigs "imdb-bert-lig" (by decide)).1 (by decide)

/-- **C9 counterexample**: the empty identifier is "any other string" in the
claim's sense (it names no configuration and matches no partial identifier of
`demoConfigs`), yet `load` fails with the truthiness `AssertionError`, not
with the `ValueError` configuration error the claim requires. -/
theorem C9_counterexample :
    load demoConfigs (some "") =
      .error (.assertionError ["multi_nli-bert-lig", "imdb-bert-lig"])
    ∧ "" ∉ list_configs demoConfigs
    ∧ "" ∉ (list_configs demoConfigs).map dataset_model_partial
    ∧ "" ∉ (list_configs demoConfigs).map dataset_explainer_partial
    ∧ load demoConfigs (some "") ≠
      .error (.valueError (list_configs demoConfigs)) := by decide

/-- **C10**: for every configuration name not present in the registry,
`get_config` returns `None` instead of raising; consequently
`get_text_fields` on an unknown name fails with an attribute access on
`None` (`AttributeError`) rather than the descriptive `ValueError` (listing
valid alternatives) that the `load` path produces. -/
theorem C10_get_config_unknown (cfgs : List Config) (name : String)
    (h : name ∉ list_configs cfgs) :
    get_config cfgs name = none
    ∧ get_text_fields cfgs name = .error .attributeError
    ∧ ∀ opts, get_text_fields cfgs name ≠ .error (.valueError opts) := by
  have h1 : get_config cfgs name = none := by
    refine List.find?_eq_none.mpr (fun x hx => ?_)
    simp only [decide_eq_true_eq]
    intro heq
    exact h (heq ▸ List.mem_map.mpr ⟨x, hx, rfl⟩)
  refine ⟨h1, ?_, ?_⟩ <;> simp [get_text_fields, h1]

/-- Witness for C10 at a concrete unknown name. -/
theorem C10_get_config_unknown_witness :
    get_config demoConfigs "imdb-roberta-lig" = none
    ∧ get_text_fields demoConfigs "imdb-roberta-lig" = .error .attributeError
    ∧ ∀ opts, get_text_fields demoConfigs "imdb-roberta-lig" ≠ .error (.valueError opts) :=
  C10_get_config_unknown demoConfigs "imdb-roberta-lig" (by decide)

/-! ## Label alignment (`Thermopack.__init__`, claim C3)

Lines 112–117: when the canonical `label_classes` of the configuration differ
from the dataset's native `label_names`, every instance's `label` is mapped
through `label_classes.index(label_names[label])`; otherwise the labels are
left untouched. -/

/-- Python `list.index(x)` on strings: index of the first occurrence,
`ValueError` when absent. -/
def py_index (l : List String) (x : String) : Except PyError Nat :=
  if x ∈ l then .ok (l.indexOf x) else .error (.valueError [])

/-- The per-instance remapping
`label_classes.index(self.label_names[instance['label']])`. -/
def aligned_label (label_classes label_names : List String) (label : Nat) :
    Except PyError Nat :=
  match label_names[label]? with
  | none => .error .indexError
  | some name => py_index label_classes name

/-- The label-alignment step of `Thermopack.__init__`, applied to the `label`
column of the dataset. -/
def thermopack_align_labels (label_classes label_names : List String)
    (labels : List Nat) : Except PyError (List Nat) :=
  if label_classes ≠ label_names then
    labels.mapM (aligned_label label_classes label_names)
  else .ok labels

/-- `Except` bind succeeds exactly when both stages succeed. -/
theorem except_bind_ok {ε α β : Type} {x : Except ε α} {f : α → Except ε β} {b : β} :
    x >>= f = .ok b ↔ ∃ a, x = .ok a ∧ f a = .ok b := by
  cases x <;> simp [Bind.bind, Except.bind]

/-- `Except` map succeeds exactly when the argument succeeds. -/
theorem except_map_ok {ε α β : Type} {g : α → β} {x : Except ε α} {b : β} :
    g <$> x = .ok b ↔ ∃ a, x = .ok a ∧ g a = b := by
  cases x <;> simp [Functor.map, Except.map]

/-- Successful monadic `mapM` over `Except` relates input and output
pointwise. -/
theorem mapM_ok_forall₂ {α β ε : Type} {f : α → Except ε β} :
    ∀ {l : List α} {out : List β}, l.mapM f = .ok out →
      List.Forall₂ (fun a b => f a = .ok b) l out := by
  intro l
  induction l with
  | nil =>
    intro out h
    simp only [List.mapM_nil, pure, Except.pure, Except.ok.injEq] at h
    cases h; exact .nil
  | cons a l ih =>
    intro out h
    rw [List.mapM_cons] at h
    obtain ⟨b, hb, hrest⟩ := except_bind_ok.mp h
    obtain ⟨bs, hbs, hcons⟩ := except_map_ok.mp hrest
    cases hcons
    exact .cons hb (ih hbs)

example : thermopack_align_labels ["entailment", "neutral", "contradiction"]
    ["contradiction", "entailment", "neutral"] [0, 1, 2] = .ok [2, 0, 1] := by decide

/-- **C3**: if the native label-name ordering equals the canonical ordering,
labels are unchanged; if it differs, every label index `l` is remapped to
`canonical.index(native[l])` (one pass over the dataset); concretely, with
native `[contradiction, entailment, neutral]` and canonical
`[entailment, neutral, contradiction]`, native index 0 maps to canonical
index 2. -/
theorem C3_label_alignment (label_classes label_names : List String)
    (labels : List Nat) :
    (label_classes = label_names →
      thermopack_align_labels label_classes label_names labels = .ok labels)
    ∧ (label_classes ≠ label_names →
        ∀ out, thermopack_align_labels label_classes label_names labels = .ok out →
          List.Forall₂ (fun l o => ∃ name, label_names[l]? = some name ∧
            name ∈ label_classes ∧ o = label_classes.indexOf name) labels out)
    ∧ thermopack_align_labels ["entailment", "neutral", "contradiction"]
        ["contradiction", "entailment", "neutral"] [0] = .ok [2] := by
  refine ⟨fun heq => by simp [thermopack_align_labels, heq], fun hne out hout => ?_,
    by decide⟩
  rw [thermopack_align_labels, if_pos hne] at hout
  refine (mapM_ok_forall₂ hout).imp (fun {l o} h => ?_)
  cases hname : label_names[l]? with
  | none => simp [aligned_label, hname] at h
  | some name =>
    by_cases hmem : name ∈ label_classes
    · simp only [aligned_label, hname, py_index, if_pos hmem, Except.ok.injEq] at h
      exact ⟨name, rfl, hmem, h.symm⟩
    · simp [aligned_label, hname, py_index, hmem] at h

/-- Witness for C3: the MNLI-style reordering maps native label 0
(`contradiction`) to canonical label 2. -/
theorem C3_label_alignment_witness :
    List.Forall₂ (fun l o => ∃ name,
      ["contradiction", "entailment", "neutral"][l]? = some name ∧
      name ∈ ["entailment", "neutral", "contradiction"] ∧
      o = ["entailment", "neutral", "contradiction"].indexOf name) [0] [2] :=
  (C3_label_alignment ["entailment", "neutral", "contradiction"]
    ["contradiction", "entailment", "neutral"] [0]).2.1 (by decide) [2] (by decide)

/-! ## Tokenizer boundary and instances

The tokenizer is an opaque external service (per the specification); only the
operations the source uses are modelled. -/

/-- The tokenizer operations used by `dataset_utils.py`. -/
structure Tokenizer : Type where
  /-- `tokenizer.convert_ids_to_tokens(ids)` -/
  convert_ids_to_tokens : List Nat → List String
  /-- `tokenizer.decode(id)` on one id -/
  decode1 : Nat → String
  /-- `tokenizer.decode(ids, skip_special_tokens=True)` -/
  decode_skip_special : List Nat → String
  /-- `tokenizer.sep_token` -/
  sep_token : String
  /-- `tokenizer.all_special_tokens` -/
  all_special_tokens : List String
  /-- `tokenizer.all_special_ids` -/
  all_special_ids : List Nat

/-- A raw data point of a Thermostat dataset: index-aligned token ids and
attribution scores, a label index, and the model's prediction scores. -/
structure Instance : Type where
  idx : Nat
  input_ids : List Nat
  attributions : List ℚ
  label : Nat
  predictions : List ℚ
deriving DecidableEq

/-- `Thermounit.tokens`: decoded tokens with their original positions
(`dict(enumerate(tokens))`, iterated in insertion order). -/
def tokens_enum (tok : Tokenizer) (inst : Instance) : List (Nat × String) :=
  (tok.convert_ids_to_tokens inst.input_ids).enum

/-! ## Token Grouper (`Thermounit.fill_text_fields`, claims C1 and C4)

Lines 186–192: `[list(g) for k, g in groupby(tokens.items(), λ kt: kt[1] !=
sep_token) if k]` computes the maximal runs of consecutive non-separator
tokens; a run is then kept only when it contains at least one non-special
token (`len(special in group) < len(group)`). -/

/-- Accumulator pass computing the maximal runs of tokens different from the
separator, the translation of the `groupby(...) if k` comprehension. -/
def runsAux (sep : String) : List (Nat × String) → List (Nat × String) →
    List (List (Nat × String))
  | [], acc => if acc = [] then [] else [acc.reverse]
  | t :: ts, acc =>
    if t.2 = sep then
      (if acc = [] then runsAux sep ts [] else acc.reverse :: runsAux sep ts [])
    else runsAux sep ts (t :: acc)

/-- The groups of consecutive non-separator tokens of an instance. -/
def sep_runs (sep : String) (toks : List (Nat × String)) :
    List (List (Nat × String)) :=
  runsAux sep toks []

/-- `text_groups`: separator-delimited runs that contain at least one
non-special token (`len([t for t in group if special]) < len(group)`). -/
def text_groups (tok : Tokenizer) (toks : List (Nat × String)) :
    List (List (Nat × String)) :=
  (sep_runs tok.sep_token toks).filter
    (fun group =>
      (group.filter (fun t => t.2 ∈ tok.all_special_tokens)).length < group.length)

/-- One entry of a filled text field: token string, attribution score and the
owning text field (`ColorToken(token, attribution, text_field, ...)`; the
`token_index` is `None` in the source and the `thermounit_vars` metadata
carries no behaviour). -/
structure ColorToken : Type where
  token : String
  attribution : ℚ
  text_field : String
deriving DecidableEq

/-- Processing of one `(text_field, field_tokens)` pair in
`fill_text_fields`: drop special tokens, select the attributions of the
surviving positions (`IndexError` if out of range), optionally fuse
subwords, assert the token/attribution lengths agree and build the
`ColorToken`s.  `fuse` is the external `fuse_subwords` routine
(`thermostat.data.tokenization`), applied only when a fusing strategy is
given, exactly as `if fuse_subwords_strategy:` does. -/
def field_color_tokens (tok : Tokenizer) (attributions : List ℚ)
    (fuse : Option (List String → List ℚ → List String × List ℚ))
    (text_field : String) (field_tokens : List (Nat × String)) :
    Except PyError (List ColorToken) := do
  let non_special_tokens_enum :=
    field_tokens.filter (fun t => t.2 ∉ tok.all_special_tokens)
  let selected_atts ← non_special_tokens_enum.mapM
    (fun t => match attributions[t.1]? with
      | some a => Except.ok a
      | none => Except.error PyError.indexError)
  let non_special_tokens := non_special_tokens_enum.map (fun t => t.2)
  let fused : List String × List ℚ := match fuse with
    | some f => f non_special_tokens selected_atts
    | none => (non_special_tokens, selected_atts)
  if fused.1.length = fused.2.length then
    Except.ok ((fused.1.zip fused.2).map
      (fun ta => ⟨ta.1, ta.2, text_field⟩))
  else Except.error (PyError.assertionError [])

/-- `Thermounit.fill_text_fields`: group the tokens, then `zip` the declared
text fields with the groups (Python `zip` silently truncates to the shorter
operand), set one attribute per zipped pair, and finally build the `texts`
dict by reading back the attribute of *every* declared text field — an
`AttributeError` when a declared field got no group.  Returns the `texts`
association (field name, color tokens). -/
def fill_text_fields (tok : Tokenizer) (text_fields : List String)
    (inst : Instance) (attributions : List ℚ)
    (fuse : Option (List String → List ℚ → List String × List ℚ)) :
    Except PyError (List (String × List ColorToken)) := do
  let groups := text_groups tok (tokens_enum tok inst)
  let assigned ← (text_fields.zip groups).mapM
    (fun fg => do
      let cts ← field_color_tokens tok attributions fuse fg.1 fg.2
      Except.ok (fg.1, cts))
  text_fields.mapM (fun tf =>
    match assigned.lookup tf with
    | some cts => Except.ok (tf, cts)
    | none => Except.error PyError.attributeError)

/-! A concrete tokenizer and instance realising the specification's worked
example `[CLS] A B [SEP] C D [SEP]`. -/

/-- A BERT-style demonstration tokenizer over a fixed vocabulary:
0 ↦ `[CLS]`, 1 ↦ `[SEP]`, 2 ↦ `[PAD]`, 10 ↦ `A`, 11 ↦ `B`, 12 ↦ `C`,
13 ↦ `D`. -/
def demoVocab (i : Nat) : String :=
  if i = 0 then "[CLS]" else if i = 1 then "[SEP]" else if i = 2 then "[PAD]"
  else if i = 10 then "A" else if i = 11 then "B" else if i = 12 then "C"
  else if i = 13 then "D" else "?"

/-- Demonstration tokenizer.  `decode_skip_special` joins non-special tokens
with spaces, an adequate stand-in for the opaque HuggingFace detokenizer. -/
def demoTokenizer : Tokenizer where
  convert_ids_to_tokens ids := ids.map demoVocab
  decode1 := demoVocab
  decode_skip_special ids :=
    py_join " " ((ids.filter (fun i => i ∉ [0, 1, 2])).map demoVocab)
  sep_token := "[SEP]"
  all_special_tokens := ["[CLS]", "[SEP]", "[PAD]"]
  all_special_ids := [0, 1, 2]

/-- `[CLS] A B [SEP] C D [SEP]` with attributions 1..7. -/
def demoInstance : Instance where
  idx := 0
  input_ids := [0, 10, 11, 1, 12, 13, 1]
  attributions := [1, 2, 3, 4, 5, 6, 7]
  label := 1
  predictions := [3, 7]

example : sep_runs "[SEP]" (tokens_enum demoTokenizer demoInstance) =
    [[(0, "[CLS]"), (1, "A"), (2, "B")], [(4, "C"), (5, "D")]] := by decide

example : text_groups demoTokenizer (tokens_enum demoTokenizer demoInstance) =
    [[(0, "[CLS]"), (1, "A"), (2, "B")], [(4, "C"), (5, "D")]] := by decide

example : fill_text_fields demoTokenizer ["premise", "hypothesis"] demoInstance
    demoInstance.attributions none =
    .ok [("premise", [⟨"A", 2, "premise"⟩, ⟨"B", 3, "premise"⟩]),
         ("hypothesis", [⟨"C", 5, "hypothesis"⟩, ⟨"D", 6, "hypothesis"⟩])] := by decide

/-- The run accumulator agrees with `splitOnP` followed by dropping empty
chunks; the accumulator contents are prepended to the first chunk. -/
theorem runsAux_eq_splitOnP (sep : String) :
    ∀ (l acc : List (Nat × String)),
      runsAux sep l acc =
        ((l.splitOnP (fun t => decide (t.2 = sep))).modifyHead
          (fun g => acc.reverse ++ g)).filter (fun g => !g.isEmpty) := by
  intro l
  induction l with
  | nil =>
    intro acc
    by_cases h : acc = [] <;>
      simp [runsAux, List.splitOnP_nil, h, List.filter_cons,
        List.isEmpty_iff]
  | cons t ts ih =>
    intro acc
    obtain ⟨s, rest, hsplit⟩ :=
      List.exists_cons_of_ne_nil
        (List.splitOnP_ne_nil (fun t => decide (t.2 = sep)) ts)
    by_cases hsep : t.2 = sep
    · have hsplit' : (t :: ts).splitOnP (fun t => decide (t.2 = sep)) =
          [] :: ts.splitOnP (fun t => decide (t.2 = sep)) := by
        rw [List.splitOnP_cons, if_pos (by simp [hsep])]
      by_cases hacc : acc = [] <;>
        simp [runsAux, hsep, hacc, hsplit', hsplit, ih [], List.filter_cons,
          List.isEmpty_iff]
    · have hsplit' : (t :: ts).splitOnP (fun t => decide (t.2 = sep)) =
          (t :: s) :: rest := by
        rw [List.splitOnP_cons, if_neg (by simp [hsep]), hsplit,
          List.modifyHead]
      simp only [runsAux, if_neg hsep, ih (t :: acc), hsplit, hsplit',
        List.modifyHead, List.reverse_cons]
      simp [List.filter_cons, List.append_assoc]

/-- The Token Grouper's runs are exactly the nonempty chunks of the
separator-split of the token sequence: maximal separator-free runs. -/
theorem sep_runs_eq_splitOnP (sep : String) (toks : List (Nat × String)) :
    sep_runs sep toks =
      (toks.splitOnP (fun t => decide (t.2 = sep))).filter (fun g => !g.isEmpty) := by
  obtain ⟨s, rest, hsplit⟩ :=
    List.exists_cons_of_ne_nil
      (List.splitOnP_ne_nil (fun t => decide (t.2 = sep)) toks)
  simp [sep_runs, runsAux_eq_splitOnP, hsplit, List.modifyHead]

/-- **C4**: the Token Grouper (i) partitions the (position, token) pairs into
the maximal runs separated by the separator token, (ii) discards a run iff
every entry in it is a special token, (iii) filters the remaining special
tokens out of each surviving run before building `ColorToken`s, and (iv) on
`[CLS] A B [SEP] C D [SEP]` with separator `[SEP]`, special set
`{[CLS], [SEP], [PAD]}` and two declared fields, yields exactly `[A, B]` for
field 1 and `[C, D]` for field 2. -/
theorem C4_token_grouper :
    (∀ (sep : String) (toks : List (Nat × String)),
      sep_runs sep toks =
        (toks.splitOnP (fun t => decide (t.2 = sep))).filter (fun g => !g.isEmpty))
    ∧ (∀ (tok : Tokenizer) (toks : List (Nat × String))
        (g : List (Nat × String)), g ∈ sep_runs tok.sep_token toks →
        (g ∈ text_groups tok toks ↔ ∃ t ∈ g, t.2 ∉ tok.all_special_tokens))
    ∧ (∀ (tok : Tokenizer) (atts : List ℚ) (tf : String)
        (g : List (Nat × String)) (out : List ColorToken),
        field_color_tokens tok atts none tf g = .ok out →
        out.map (fun ct => ct.token) =
          (g.filter (fun t => t.2 ∉ tok.all_special_tokens)).map (fun t => t.2))
    ∧ fill_text_fields demoTokenizer ["field1", "field2"] demoInstance
        demoInstance.attributions none =
      .ok [("field1", [⟨"A", 2, "field1"⟩, ⟨"B", 3, "field1"⟩]),
           ("field2", [⟨"C", 5, "field2"⟩, ⟨"D", 6, "field2"⟩])] := by
  refine ⟨sep_runs_eq_splitOnP, fun tok toks g hg => ?_, ?_, by decide⟩
  · rw [text_groups, List.mem_filter]
    simp only [hg, true_and, decide_eq_true_eq]
    rw [List.length_filter_lt_length_iff_exists]
    simp
  · intro tok atts tf g out h
    rw [field_color_tokens] at h
    obtain ⟨selected, hsel, hrest⟩ := except_bind_ok.mp h
    have hlen : (g.filter (fun t => t.2 ∉ tok.all_special_tokens)).length =
        selected.length :=
      (mapM_ok_forall₂ hsel).length_eq
    rw [if_pos (by simpa using hlen)] at hrest
    simp only [Except.ok.injEq] at hrest
    subst hrest
    rw [List.map_map]
    exact List.map_fst_zip _ _ (by simpa using hlen.le)

/-- Witness for C4: the `[C, D]` run of the worked example survives grouping
because it contains a non-special token. -/
theorem C4_token_grouper_witness :
    [(4, "C"), (5, "D")] ∈
      text_groups demoTokenizer (tokens_enum demoTokenizer demoInstance) :=
  ((C4_token_grouper.2.1 demoTokenizer (tokens_enum demoTokenizer demoInstance)
    [(4, "C"), (5, "D")] (by decide)).mpr (by decide))

/-! ## Claim C1: run count vs. declared field count

`fill_text_fields` pairs `self.text_fields` with `text_groups` through
Python's `zip`, which silently stops at the shorter operand.  Extra runs are
dropped without any error; extra declared fields stay unassigned, and the
final `texts` dict comprehension then raises `AttributeError` on the first
unassigned field. -/

/-- A successful `mapM` exists as soon as every element succeeds. -/
theorem exceptMapM_ok_of_forall {α β ε : Type} {f : α → Except ε β} :
    ∀ {l : List α}, (∀ a ∈ l, ∃ b, f a = .ok b) → ∃ out, l.mapM f = .ok out := by
  intro l
  induction l with
  | nil => exact fun _ => ⟨[], rfl⟩
  | cons a l ih =>
    intro h
    obtain ⟨b, hb⟩ := h a (by simp)
    obtain ⟨out, hout⟩ := ih (fun x hx => h x (by simp [hx]))
    have hout' : List.mapM.loop f l [] = Except.ok out := hout
    refine ⟨b :: out, ?_⟩
    rw [List.mapM_cons, hb]
    simp [Bind.bind, Except.bind, hout', Functor.map, Except.map, pure, Except.pure]

/-- A failing `mapM` pinpoints a failing element. -/
theorem exceptMapM_error {α β ε : Type} {f : α → Except ε β} {e : ε} :
    ∀ {l : List α}, l.mapM f = .error e → ∃ a ∈ l, f a = .error e := by
  intro l
  induction l with
  | nil =>
    intro h
    have h' : (Except.ok ([] : List β) : Except ε (List β)) = .error e := h
    exact absurd h' (by simp)
  | cons a l ih =>
    intro h
    rw [List.mapM_cons] at h
    cases ha : f a with
    | error e' =>
      rw [ha] at h
      have he : e' = e := by simpa [Bind.bind, Except.bind] using h
      exact ⟨a, by simp, he ▸ ha⟩
    | ok b =>
      rw [ha] at h
      simp only [Bind.bind, Except.bind] at h
      cases hl : l.mapM f with
      | error e' =>
        rw [hl] at h
        have he : e' = e := by simpa [Functor.map, Except.map] using h
        obtain ⟨x, hx, hfx⟩ := ih (he ▸ hl)
        exact ⟨x, by simp [hx], hfx⟩
      | ok bs =>
        rw [hl] at h
        simp only [Functor.map, Except.map, pure, Except.pure] at h
        exact absurd h (by simp)

/-- A key present among the first components can be looked up. -/
theorem lookup_some_of_mem_keys {β : Type} {l : List (String × β)} {k : String}
    (h : k ∈ l.map Prod.fst) : ∃ b, l.lookup k = some b := by
  induction l with
  | nil => simp at h
  | cons p l ih =>
    obtain ⟨k', b'⟩ := p
    by_cases hk : k = k'
    · exact ⟨b', by simp [List.lookup, hk]⟩
    · have hmem : k ∈ l.map Prod.fst := by
        rcases List.mem_cons.mp h with h' | h'
        · exact absurd h' hk
        · exact h'
      obtain ⟨b, hb⟩ := ih hmem
      have hbeq : (k == k') = false := beq_eq_false_iff_ne.mpr hk
      exact ⟨b, by simp [List.lookup, hbeq, hb]⟩

/-- A successful lookup means the key occurs among the first components. -/
theorem mem_keys_of_lookup_some {β : Type} {l : List (String × β)} {k : String}
    {b : β} (h : l.lookup k = some b) : k ∈ l.map Prod.fst := by
  induction l with
  | nil => simp [List.lookup] at h
  | cons p l ih =>
    obtain ⟨k', b'⟩ := p
    by_cases hk : k = k'
    · simp [hk]
    · have hbeq : (k == k') = false := beq_eq_false_iff_ne.mpr hk
      rw [List.lookup, hbeq] at h
      exact List.mem_cons_of_mem _ (ih h)

/-- The keys of a `zip` come from the prefix of the first operand that the
second operand covers. -/
theorem mem_map_fst_zip_take {α β : Type} :
    ∀ {l1 : List α} {l2 : List β} {k : α},
      k ∈ (l1.zip l2).map Prod.fst → k ∈ l1.take l2.length := by
  intro l1
  induction l1 with
  | nil => intro l2 k h; simp at h
  | cons a l1 ih =>
    intro l2 k h
    cases l2 with
    | nil => simp at h
    | cons b l2 =>
      rw [List.zip_cons_cons, List.map_cons, List.mem_cons] at h
      rcases h with h | h
      · simp [h]
      · simp only [List.length_cons, List.take_succ_cons, List.mem_cons]
        exact Or.inr (ih h)

/-- Pointwise first-component agreement transports `map`. -/
theorem forall₂_fst_eq {α β γ : Type} {l1 : List α} {l2 : List β} {f : α → γ}
    {g : β → γ} (h : List.Forall₂ (fun a b => g b = f a) l1 l2) :
    l2.map g = l1.map f := by
  induction h with
  | nil => rfl
  | cons h _ ih => simp [ih, h]

/-- Every token of every run produced by `runsAux` comes from the input list
or from the accumulator. -/
theorem mem_runsAux {sep : String} :
    ∀ (l acc : List (Nat × String)) (g : List (Nat × String)),
      g ∈ runsAux sep l acc → ∀ t ∈ g, t ∈ l ∨ t ∈ acc := by
  intro l
  induction l with
  | nil =>
    intro acc g hg t ht
    rw [runsAux] at hg
    by_cases hacc : acc = []
    · simp [hacc] at hg
    · rw [if_neg hacc] at hg
      rcases List.mem_singleton.mp hg with rfl
      exact Or.inr (by simpa using ht)
  | cons t0 ts ih =>
    intro acc g hg t ht
    rw [runsAux] at hg
    by_cases hsep : t0.2 = sep
    · rw [if_pos hsep] at hg
      by_cases hacc : acc = []
      · rw [if_pos hacc] at hg
        rcases ih [] g hg t ht with h | h
        · exact Or.inl (List.mem_cons_of_mem _ h)
        · simp at h
      · rw [if_neg hacc] at hg
        rcases List.mem_cons.mp hg with rfl | h
        · exact Or.inr (by simpa using ht)
        · rcases ih [] g h t ht with h' | h'
          · exact Or.inl (List.mem_cons_of_mem _ h')
          · simp at h'
    · rw [if_neg hsep] at hg
      rcases ih (t0 :: acc) g hg t ht with h | h
      · exact Or.inl (List.mem_cons_of_mem _ h)
      · rcases List.mem_cons.mp h with rfl | h'
        · exact Or.inl (List.mem_cons_self _ _)
        · exact Or.inr h'

/-- Every position mentioned in a surviving text group indexes into the
decoded token list. -/
theorem text_groups_pos_lt {tok : Tokenizer} {inst : Instance}
    {g : List (Nat × String)} (hg : g ∈ text_groups tok (tokens_enum tok inst))
    {t : Nat × String} (ht : t ∈ g) :
    t.1 < (tok.convert_ids_to_tokens inst.input_ids).length := by
  have hrun : g ∈ sep_runs tok.sep_token (tokens_enum tok inst) :=
    List.mem_of_mem_filter hg
  rcases mem_runsAux _ _ g hrun t ht with h | h
  · have := List.mem_enum_iff_getElem?.mp h
    exact (List.getElem?_eq_some_iff.mp this).1
  · simp at h

/-- With the `none` fusing strategy, `field_color_tokens` succeeds whenever
every surviving position indexes into the attribution list. -/
theorem field_color_tokens_none_ok {tok : Tokenizer} {atts : List ℚ}
    {tf : String} {g : List (Nat × String)}
    (hv : ∀ t ∈ g, t.1 < atts.length) :
    ∃ out, field_color_tokens tok atts none tf g = .ok out := by
  have hsel : ∀ t ∈ g.filter (fun t => t.2 ∉ tok.all_special_tokens),
      ∃ a, (match atts[t.1]? with
        | some a => Except.ok a
        | none => (Except.error PyError.indexError : Except PyError ℚ)) = .ok a := by
    intro t ht
    have hlt : t.1 < atts.length := hv t (List.mem_of_mem_filter ht)
    exact ⟨atts[t.1], by rw [List.getElem?_eq_getElem hlt]⟩
  obtain ⟨sel, hsel'⟩ := exceptMapM_ok_of_forall hsel
  have hlen : (g.filter (fun t => t.2 ∉ tok.all_special_tokens)).length =
      sel.length := (mapM_ok_forall₂ hsel').length_eq
  refine ⟨(((g.filter (fun t => t.2 ∉ tok.all_special_tokens)).map
      (fun t => t.2)).zip sel).map (fun ta => ⟨ta.1, ta.2, tf⟩), ?_⟩
  rw [field_color_tokens, hsel']
  simp only [Bind.bind, Except.bind]
  rw [if_pos (by simpa using hlen)]

/-- A pointwise relation pairs every left element with some right element. -/
theorem forall₂_exists_of_mem_left {α β : Type} {R : α → β → Prop}
    {l1 : List α} {l2 : List β} (h : List.Forall₂ R l1 l2) :
    ∀ a ∈ l1, ∃ b ∈ l2, R a b := by
  induction h with
  | nil => intro a ha; simp at ha
  | cons hR _ ih =>
    intro a ha
    rcases List.mem_cons.mp ha with rfl | ha'
    · exact ⟨_, by simp, hR⟩
    · obtain ⟨b, hb, hRb⟩ := ih a ha'
      exact ⟨b, List.mem_cons_of_mem _ hb, hRb⟩

example : fill_text_fields demoTokenizer ["f1", "f2", "f3"] demoInstance
    demoInstance.attributions none = .error .attributeError := by decide

example : fill_text_fields demoTokenizer ["text"] demoInstance
    demoInstance.attributions none =
    .ok [("text", [⟨"A", 2, "text"⟩, ⟨"B", 3, "text"⟩])] := by decide

/-- **C1 counterexample**: with one declared text field and two surviving
runs (`[CLS] A B [SEP] C D [SEP]` keeps `[A, B]` and `[C, D]`),
`fill_text_fields` succeeds, silently dropping the second run — no
configuration error is reported although the run count differs from the
declared field count. -/
theorem C1_counterexample :
    (text_groups demoTokenizer (tokens_enum demoTokenizer demoInstance)).length = 2
    ∧ (["text"] : List String).length = 1
    ∧ fill_text_fields demoTokenizer ["text"] demoInstance
        demoInstance.attributions none =
      .ok [("text", [⟨"A", 2, "text"⟩, ⟨"B", 3, "text"⟩])] := by decide

/-- **C1** (amended): `fill_text_fields` never reports a run/field-count
mismatch as a configuration error.  When the declared fields are at most as
many as the surviving runs, it succeeds and silently drops the extra runs,
assigning each declared field in order.  When there are more (distinct)
declared fields than surviving runs, it fails with an `AttributeError`
raised by the `texts` dict comprehension reading an unassigned field — an
attribute-access failure, not a descriptive configuration error.  (The
hypothesis `hlen` is the ingestion invariant that every decoded token
position indexes into the attribution list.) -/
theorem C1_run_field_mismatch (tok : Tokenizer) (text_fields : List String)
    (inst : Instance) (atts : List ℚ)
    (hlen : (tok.convert_ids_to_tokens inst.input_ids).length ≤ atts.length) :
    (text_fields.length ≤ (text_groups tok (tokens_enum tok inst)).length →
      ∃ out, fill_text_fields tok text_fields inst atts none = .ok out ∧
        out.map Prod.fst = text_fields)
    ∧ (text_fields.Nodup →
        (text_groups tok (tokens_enum tok inst)).length < text_fields.length →
        fill_text_fields tok text_fields inst atts none = .error .attributeError) := by
  set groups := text_groups tok (tokens_enum tok inst) with hgroups
  -- every zipped pair is processed successfully
  have hstage1 : ∀ fg ∈ text_fields.zip groups,
      ∃ b, (do
        let cts ← field_color_tokens tok atts none fg.1 fg.2
        Except.ok (fg.1, cts) : Except PyError (String × List ColorToken)) = .ok b := by
    intro fg hfg
    obtain ⟨f, g⟩ := fg
    have hgmem : g ∈ groups := (List.of_mem_zip hfg).2
    have hv : ∀ t ∈ g, t.1 < atts.length := fun t ht =>
      lt_of_lt_of_le (text_groups_pos_lt (hgroups ▸ hgmem) ht) hlen
    obtain ⟨cts, hcts⟩ := @field_color_tokens_none_ok tok atts f g hv
    exact ⟨(f, cts), by rw [hcts]; rfl⟩
  obtain ⟨assigned, hassigned⟩ := exceptMapM_ok_of_forall hstage1
  have hkeys : assigned.map Prod.fst = (text_fields.zip groups).map Prod.fst := by
    refine forall₂_fst_eq ((mapM_ok_forall₂ hassigned).imp ?_)
    intro fg b hb
    obtain ⟨cts, _, hok⟩ := except_bind_ok.mp hb
    cases hok
    rfl
  have hfill : ∀ r, fill_text_fields tok text_fields inst atts none = r ↔
      (text_fields.mapM (fun tf =>
        match assigned.lookup tf with
        | some cts => Except.ok (tf, cts)
        | none => (Except.error PyError.attributeError :
            Except PyError (String × List ColorToken)))) = r := by
    intro r
    rw [fill_text_fields, ← hgroups, hassigned]
    exact Iff.rfl
  constructor
  · intro hle
    have hzipkeys : (text_fields.zip groups).map Prod.fst = text_fields :=
      List.map_fst_zip _ _ hle
    have htexts : ∀ tf ∈ text_fields,
        ∃ b, (match assigned.lookup tf with
          | some cts => Except.ok (tf, cts)
          | none => (Except.error PyError.attributeError :
              Except PyError (String × List ColorToken))) = .ok b := by
      intro tf htf
      have : tf ∈ assigned.map Prod.fst := by rw [hkeys, hzipkeys]; exact htf
      obtain ⟨cts, hcts⟩ := lookup_some_of_mem_keys this
      exact ⟨(tf, cts), by rw [hcts]⟩
    obtain ⟨out, hout⟩ := exceptMapM_ok_of_forall htexts
    refine ⟨out, (hfill _).mpr hout, ?_⟩
    have : List.Forall₂ (fun tf (b : String × List ColorToken) => b.1 = tf)
        text_fields out := by
      refine (mapM_ok_forall₂ hout).imp ?_
      intro tf b hb
      cases hlk : assigned.lookup tf with
      | some cts => rw [hlk] at hb; cases hb; rfl
      | none => rw [hlk] at hb; cases hb
    simpa using @forall₂_fst_eq _ _ _ _ _ id Prod.fst this
  · intro hnodup hlt
    have hstar : text_fields[groups.length] ∉ assigned.map Prod.fst := by
      rw [hkeys]
      intro hmem
      have htake := mem_map_fst_zip_take hmem
      obtain ⟨i, hi, hieq⟩ := List.mem_iff_getElem.mp htake
      rw [List.getElem_take] at hieq
      have hi' : i < groups.length := by
        have := hi
        simp only [List.length_take] at this
        exact lt_of_lt_of_le this (min_le_left _ _)
      have : i = groups.length :=
        (hnodup.getElem_inj_iff).mp hieq
      omega
    have hneF : (match assigned.lookup text_fields[groups.length] with
        | some cts => Except.ok (text_fields[groups.length], cts)
        | none => (Except.error PyError.attributeError :
            Except PyError (String × List ColorToken))) = .error .attributeError := by
      cases hlk : assigned.lookup text_fields[groups.length] with
      | some cts => exact absurd (mem_keys_of_lookup_some hlk) hstar
      | none => rfl
    cases hres : text_fields.mapM (fun tf =>
        match assigned.lookup tf with
        | some cts => Except.ok (tf, cts)
        | none => (Except.error PyError.attributeError :
            Except PyError (String × List ColorToken))) with
    | ok out =>
      obtain ⟨b, _, hb⟩ := forall₂_exists_of_mem_left (mapM_ok_forall₂ hres)
        text_fields[groups.length] (List.getElem_mem _)
      rw [hneF] at hb
      cases hb
    | error e =>
      obtain ⟨a, _, ha⟩ := exceptMapM_error hres
      have he : e = .attributeError := by
        cases hlk : assigned.lookup a with
        | some cts => rw [hlk] at ha; cases ha
        | none => rw [hlk] at ha; cases ha; rfl
      exact (hfill _).mpr (he ▸ hres)

/-- Witness for C1: two declared fields and two runs fill successfully, each
field assigned in order. -/
theorem C1_run_field_mismatch_witness :
    ∃ out, fill_text_fields demoTokenizer ["field1", "field2"] demoInstance
        demoInstance.attributions none = .ok out ∧
      out.map Prod.fst = ["field1", "field2"] :=
  (C1_run_field_mismatch demoTokenizer ["field1", "field2"] demoInstance
    demoInstance.attributions (by decide)).1 (by decide)

/-! ## Attribution normalisation and the heatmap (claims C5 and C2) -/

/-- `instance['predictions'].index(max(instance['predictions']))`: the first
position of the maximal prediction score (`Thermopack.units`, line 136). -/
def predicted_label_index (predictions : List ℚ) : Nat :=
  predictions.indexOf (pyMax predictions)

/-- Modelled from the spec: `normalize_attributions` lives in
`thermostat.visualize`, which is not in the source tree.  Per §4.4 of the
specification it rescales the scores into a fixed bounded range, preserving
signs, so that the maximum absolute value maps to the range boundary and
zero stays zero; an all-zero sequence is returned unchanged. -/
def normalize_attributions (atts : List ℚ) : List ℚ :=
  let m := pyMax (atts.map (fun a => |a|))
  if m = 0 then atts else atts.map (fun a => a / m)

/-- Lines 236–241 of `Thermounit.heatmap`: optional normalisation followed by
the sign flip `if flip_attributions_idx == self.predicted_label['index']:
atts = [att * -1 for att in atts]`. -/
def heatmap_atts (attributions predictions : List ℚ) (normalize : Bool)
    (flip_attributions_idx : Option Nat) : List ℚ :=
  let atts := if normalize then normalize_attributions attributions
    else attributions
  if flip_attributions_idx = some (predicted_label_index predictions) then
    atts.map (fun att => att * -1)
  else atts

/-- The heatmap of one instance: its colour tokens and the gamma used for
rendering intensity. -/
structure Heatmap : Type where
  color_tokens : List ColorToken
  gamma : ℚ
deriving DecidableEq

/-- The body of `Thermounit.heatmap` (lines 232–250): normalise and maybe
flip the attributions, fill the text fields with them, then concatenate the
per-field colour tokens (`reduce(lambda x, y: x + y, ...)`, a `TypeError` on
an empty field list) into a `Heatmap`. -/
def heatmap_compute (tok : Tokenizer) (text_fields : List String)
    (fuse : Option (List String → List ℚ → List String × List ℚ))
    (inst : Instance) (gamma : ℚ) (normalize : Bool)
    (flip_attributions_idx : Option Nat) : Except PyError Heatmap := do
  let atts := heatmap_atts inst.attributions inst.predictions normalize
    flip_attributions_idx
  let texts ← fill_text_fields tok text_fields inst atts fuse
  match texts.map Prod.snd with
  | [] => Except.error PyError.typeError
  | c :: rest => Except.ok ⟨rest.foldl (fun x y => x ++ y) c, gamma⟩

/-- A `Thermounit` together with the memoisation cell of its `heatmap`
property. -/
structure ThermounitState : Type where
  inst : Instance
  heatmap_cache : Option (Except PyError Heatmap)
deriving DecidableEq

/-- Modelled from the spec: `lazy_property` (from `thermostat.utils`, not in
the source tree) memoises a derived property — computed once on first
access, with no way to pass arguments, cached for the object's lifetime and
returned from the cache on every later access ("compute once, never
recompute").  An access of `Thermounit.heatmap` therefore always computes
with the declared defaults `gamma=1.0`, `normalize=True`,
`flip_attributions_idx=None`. -/
def heatmap_access (tok : Tokenizer) (text_fields : List String)
    (fuse : Option (List String → List ℚ → List String × List ℚ))
    (s : ThermounitState) : Except PyError Heatmap × ThermounitState :=
  match s.heatmap_cache with
  | some h => (h, s)
  | none =>
    let h := heatmap_compute tok text_fields fuse s.inst 1 true none
    (h, ⟨s.inst, some h⟩)

/-- **C5**: when building the heatmap, all attribution scores have their
sign flipped iff the supplied flip index equals the instance's predicted
label index (the first argmax of the prediction vector); any other supplied
index, or no index, leaves every score unchanged. -/
theorem C5_sign_flip (attributions predictions : List ℚ) (normalize : Bool)
    (flip : Option Nat) :
    (flip = some (predicted_label_index predictions) →
      heatmap_atts attributions predictions normalize flip =
        (if normalize then normalize_attributions attributions
          else attributions).map (fun att => att * -1))
    ∧ (flip ≠ some (predicted_label_index predictions) →
        heatmap_atts attributions predictions normalize flip =
          (if normalize then normalize_attributions attributions
            else attributions))
    ∧ heatmap_atts attributions predictions normalize none =
        (if normalize then normalize_attributions attributions
          else attributions) := by
  refine ⟨fun h => by simp only [heatmap_atts, if_pos h],
    fun h => by simp only [heatmap_atts, if_neg h], ?_⟩
  have : (none : Option Nat) ≠ some (predicted_label_index predictions) := by simp
  simp only [heatmap_atts, if_neg this]

/-- Witness for C5: predictions `[2, 1]` have argmax index 0, so flip index
0 negates the (unnormalised) scores while flip index 1 leaves them
unchanged. -/
theorem C5_sign_flip_witness :
    heatmap_atts [1, -1] [2, 1] false (some 0) =
      ([1, -1] : List ℚ).map (fun att => att * -1)
    ∧ heatmap_atts [1, -1] [2, 1] false (some 1) = [1, -1] :=
  ⟨(C5_sign_flip [1, -1] [2, 1] false (some 0)).1 (by decide),
   (C5_sign_flip [1, -1] [2, 1] false (some 1)).2.1 (by decide)⟩

/-- A two-token instance (`A B`, no separators) whose predicted label index
is 0; used to exercise the heatmap cache. -/
def c2Instance : Instance where
  idx := 1
  input_ids := [10, 11]
  attributions := [1, -1]
  label := 0
  predictions := [2, 1]

/-- **C2 counterexample**: the `heatmap` property is memoised by
`lazy_property`.  The first access computes with the fixed defaults
(`gamma=1.0`, `normalize=True`, no flip); a second request returns the very
same cached heatmap, although computing with that request's differing
normalization parameter (flip index 0, the predicted label) yields a
different heatmap.  The derived heatmap is therefore not recomputed per
request from the request's parameters. -/
theorem C2_counterexample :
    (heatmap_access demoTokenizer ["text"] none ⟨c2Instance, none⟩).1 =
      .ok ⟨[⟨"A", 1, "text"⟩, ⟨"B", -1, "text"⟩], 1⟩
    ∧ (heatmap_access demoTokenizer ["text"] none
        ((heatmap_access demoTokenizer ["text"] none ⟨c2Instance, none⟩).2)).1 =
      .ok ⟨[⟨"A", 1, "text"⟩, ⟨"B", -1, "text"⟩], 1⟩
    ∧ heatmap_compute demoTokenizer ["text"] none c2Instance 1 true (some 0) =
      .ok ⟨[⟨"A", -1, "text"⟩, ⟨"B", 1, "text"⟩], 1⟩
    ∧ ((Except.ok (⟨[⟨"A", 1, "text"⟩, ⟨"B", -1, "text"⟩], 1⟩ : Heatmap) :
          Except PyError Heatmap) ≠
        Except.ok ⟨[⟨"A", -1, "text"⟩, ⟨"B", 1, "text"⟩], 1⟩) := by
  have hn : heatmap_atts c2Instance.attributions c2Instance.predictions
      true none = [1, -1] := by
    norm_num [c2Instance, heatmap_atts, normalize_attributions, pyMax]
    simp
  have hf : heatmap_atts c2Instance.attributions c2Instance.predictions
      true (some 0) = [-1, 1] := by
    norm_num [c2Instance, heatmap_atts, normalize_attributions, pyMax,
      predicted_label_index, List.indexOf_cons]
  have hcomp : heatmap_compute demoTokenizer ["text"] none c2Instance
      1 true none = .ok ⟨[⟨"A", 1, "text"⟩, ⟨"B", -1, "text"⟩], 1⟩ := by
    rw [heatmap_compute, hn]
    decide
  have hflip : heatmap_compute demoTokenizer ["text"] none c2Instance
      1 true (some 0) = .ok ⟨[⟨"A", -1, "text"⟩, ⟨"B", 1, "text"⟩], 1⟩ := by
    rw [heatmap_compute, hf]
    decide
  exact ⟨hcomp, hcomp, hflip, by decide⟩

/-- **C2** (amended): `Thermounit.heatmap` is a lazily memoised property:
the first access computes it once with the fixed default parameters
(`gamma=1.0`, `normalize=True`, no flip index) and caches it; every later
access returns the cached value unchanged, and per-request normalization
parameters cannot be supplied at all. -/
theorem C2_heatmap_memoized (tok : Tokenizer) (text_fields : List String)
    (fuse : Option (List String → List ℚ → List String × List ℚ))
    (s : ThermounitState) :
    (s.heatmap_cache = none →
      heatmap_access tok text_fields fuse s =
        (heatmap_compute tok text_fields fuse s.inst 1 true none,
         ⟨s.inst, some (heatmap_compute tok text_fields fuse s.inst 1 true none)⟩))
    ∧ (∀ h, s.heatmap_cache = some h →
        heatmap_access tok text_fields fuse s = (h, s))
    ∧ (heatmap_access tok text_fields fuse
        ((heatmap_access tok text_fields fuse s).2)).1 =
      (heatmap_access tok text_fields fuse s).1 := by
  obtain ⟨inst, cache⟩ := s
  cases cache with
  | none => exact ⟨fun _ => rfl, fun h hh => by simp at hh, rfl⟩
  | some h =>
    refine ⟨fun hh => by simp at hh, fun h' hh => ?_, rfl⟩
    have : h = h' := by simpa using hh
    subst this
    rfl

/-- Witness for C2: a fresh cache is filled by the first access, which
computes the heatmap with the default parameters. -/
theorem C2_heatmap_memoized_witness :
    heatmap_access demoTokenizer ["text"] none ⟨c2Instance, none⟩ =
      (heatmap_compute demoTokenizer ["text"] none c2Instance 1 true none,
       ⟨c2Instance,
        some (heatmap_compute demoTokenizer ["text"] none c2Instance 1 true none)⟩) :=
  (C2_heatmap_memoized demoTokenizer ["text"] none ⟨c2Instance, none⟩).1 rfl

/-! ## Coordinates and dataset columns (aggregate statistics)

`get_coordinate` extracts `Model`, `Dataset` or `Explainer` from the
free-text `description` of a dataset; the statistics run over raw
HuggingFace datasets, modelled as rows of (token ids, attributions, label)
plus the description.  `AutoTokenizer.from_pretrained` is an opaque map
from model identifiers to tokenizers. -/

/-- `get_coordinate(thermostat_dataset, coordinate)` (lines 60–70): assert a
known coordinate, assert `"<Coordinate>: "` occurs in the description, take
the text after the first occurrence up to the next newline. -/
def get_coordinate (description : String) (coordinate : String) :
    Except PyError String :=
  if coordinate ∈ ["Model", "Dataset", "Explainer"] then
    let coord_prefix := coordinate ++ ": "
    if py_contains description coord_prefix then
      let str_post_coord_prefix := (py_split description coord_prefix).getD 1 ""
      if py_contains str_post_coord_prefix "\n" then
        .ok ((py_split str_post_coord_prefix "\n").getD 0 "")
      else .ok str_post_coord_prefix
    else .error (.assertionError [])
  else .error (.assertionError [])

/-- One row of a raw Thermostat dataset as the statistics read it. -/
structure StatRow : Type where
  input_ids : List Nat
  attributions : List ℚ
  label : Nat
deriving DecidableEq

/-- A raw Thermostat dataset: the `is_dataset` flag models the Python
runtime type test `type(td) == Dataset`. -/
structure TDataset : Type where
  is_dataset : Bool
  description : String
  rows : List StatRow
deriving DecidableEq

/-- `AutoTokenizer.from_pretrained`, an opaque external boundary; the demo
always yields the demonstration tokenizer. -/
def demoTokenizerOf (_model : String) : Tokenizer := demoTokenizer

example : get_coordinate "Model: bert\nDataset: imdb\nExplainer: lig" "Model" =
    .ok "bert" := by decide

example : get_coordinate "Model: bert\nDataset: imdb\nExplainer: lig" "Explainer" =
    .ok "lig" := by decide

/-- Python `defaultdict(list)` update `d[k].append(v)`: the first entry with
the key grows in place, a fresh key is appended at the end. -/
def dict_append {κ β : Type} [DecidableEq κ] (acc : List (κ × List β))
    (k : κ) (v : β) : List (κ × List β) :=
  match acc with
  | [] => [(k, [v])]
  | (k', vs) :: rest =>
    if k' = k then (k', vs ++ [v]) :: rest
    else (k', vs) :: dict_append rest k v

/-- Python dict update `d[k] = v`: the first entry with the key is replaced
in place, a fresh key is appended at the end. -/
def dict_set {κ β : Type} [DecidableEq κ] (acc : List (κ × β)) (k : κ)
    (v : β) : List (κ × β) :=
  match acc with
  | [] => [(k, v)]
  | (k', v') :: rest =>
    if k' = k then (k', v) :: rest
    else (k', v') :: dict_set rest k v

/-- Python `sorted(l, key=key, reverse=True)`: stable descending sort by a
rational key. -/
def sortDescBy {α : Type} (key : α → ℚ) (l : List α) : List α :=
  List.insertionSort (fun a b => key b ≤ key a) l

/-! ### `avg_attribution_stat` (claim C7) -/

/-- The stream of `(decoded token, sign-adjusted score)` contributions of
the nested loops of `avg_attribution_stat` (lines 330–338): one entry per
`zip(row['input_ids'], row['attributions'])` element, the score negated
exactly when the row's label is 0. -/
def avg_contribs (tokenizer : Tokenizer) (rows : List StatRow) :
    List (String × ℚ) :=
  rows.flatMap (fun row =>
    (row.input_ids.zip row.attributions).map
      (fun ia => (tokenizer.decode1 ia.1,
        if row.label = 0 then -ia.2 else ia.2)))

/-- The `token_atts` defaultdict after the loops. -/
def token_atts (tokenizer : Tokenizer) (rows : List StatRow) :
    List (String × List ℚ) :=
  (avg_contribs tokenizer rows).foldl (fun acc kv => dict_append acc kv.1 kv.2) []

/-- `avg_attribution_stat(thermostat_dataset)` (lines 324–344): look up the
model, decode every token id, accumulate the sign-adjusted scores per
decoded string, average each list, sort descending by average. -/
def avg_attribution_stat (tokenizer_of : String → Tokenizer) (ds : TDataset) :
    Except PyError (List (String × ℚ)) := do
  let model_id ← get_coordinate ds.description "Model"
  let tokenizer := tokenizer_of model_id
  let avgs := (token_atts tokenizer ds.rows).map
    (fun ksc => (ksc.1, ksc.2.sum / (ksc.2.length : ℚ)))
  Except.ok (sortDescBy (fun x => x.2) avgs)

/-! ### `explainer_agreement_stat` (claims C6 and C8) -/

/-- Python `zip(a, *bs)`: pair each element of `a` with the tuple of heads
of the `bs`, stopping at the shortest operand.  Fuel-based (the length of
`a` bounds the number of steps) so the kernel can evaluate it. -/
def zipStarGo {α β : Type} : Nat → List α → List (List β) → List (α × List β)
  | 0, _, _ => []
  | _ + 1, [], _ => []
  | fuel + 1, a :: as, bss =>
    match bss.mapM List.head? with
    | some hs => (a, hs) :: zipStarGo fuel as (bss.map List.tail)
    | none => []

/-- Python `zip(a, *bs)`. -/
def py_zip_star {α β : Type} (as : List α) (bss : List (List β)) :
    List (α × List β) :=
  zipStarGo as.length as bss

example : py_zip_star [10, 11, 12] [[1, 2], [4, 5, 6]] =
    [((10 : Nat), [(1 : ℚ), 4]), (11, [2, 5])] := by decide

/-- The value stored per token position: the spread of the explainers'
scores and the per-explainer scores themselves. -/
structure DissimEntry : Type where
  dissim : ℚ
  atts : List (String × ℚ)
deriving DecidableEq

/-- The inner loop of `explainer_agreement_stat` over one data point
(lines 364–377): enumerate `zip(*row)`, skip special token ids, and key
`max - min` of the explainer scores by (decoded token, decoded context,
position). -/
def row_entries (tokenizer : Tokenizer) (explainer_names : List String)
    (ids : List Nat) (att_rows : List (List ℚ)) :
    List ((String × String × Nat) × DissimEntry) :=
  let tokens := tokenizer.decode_skip_special ids
  ((py_zip_star ids att_rows).enum.filter
    (fun p => p.2.1 ∉ tokenizer.all_special_ids)).map
    (fun p => ((tokenizer.decode1 p.2.1, tokens, p.1),
      ⟨pyMax p.2.2 - pyMin p.2.2, explainer_names.zip p.2.2⟩))

/-- The dissimilarity computation of `explainer_agreement_stat` after the
explainer dictionary is built: iterate the zipped data points, fill the
`tokens_dissim` dict, and sort descending by `dissim`. -/
def agreement_core (tokenizer : Tokenizer) (explainer_names : List String)
    (ids_rows : List (List Nat)) (att_tables : List (List (List ℚ))) :
    List ((String × String × Nat) × DissimEntry) :=
  let data_rows := py_zip_star ids_rows att_tables
  let entries := data_rows.flatMap
    (fun r => row_entries tokenizer explainer_names r.1 r.2)
  let tokens_dissim := entries.foldl (fun acc kv => dict_set acc kv.1 kv.2) []
  List.insertionSort (fun a b => b.2.dissim ≤ a.2.dissim) tokens_dissim

/-- The body of the first loop of `explainer_agreement_stat`
(lines 351–355): assert the argument is a `Dataset`, look up its explainer
name, and contribute `(explainer, attributions column)`. -/
def explainer_atts_entry (td : TDataset) :
    Except PyError (String × List (List ℚ)) :=
  if td.is_dataset then do
    let explainer_id ← get_coordinate td.description "Explainer"
    Except.ok (explainer_id, td.rows.map (fun r => r.attributions))
  else Except.error (PyError.assertionError [])

/-- `explainer_agreement_stat(thermostat_datasets)` (lines 347–378):
`assert len(...) > 1`, build the explainer→attributions dict with a type
assertion per element, look up the model of the first dataset, then compute
and sort the per-position spreads. -/
def explainer_agreement_stat (tokenizer_of : String → Tokenizer)
    (thermostat_datasets : List TDataset) :
    Except PyError (List ((String × String × Nat) × DissimEntry)) :=
  match thermostat_datasets with
  | td0 :: _ :: _ => do
    let pairs ← thermostat_datasets.mapM explainer_atts_entry
    let all_explainers_atts := pairs.foldl
      (fun acc kv => dict_set acc kv.1 kv.2) []
    let model_id ← get_coordinate td0.description "Model"
    Except.ok (agreement_core (tokenizer_of model_id)
      (all_explainers_atts.map Prod.fst)
      (td0.rows.map (fun r => r.input_ids))
      (all_explainers_atts.map Prod.snd))
  | _ => .error (.assertionError [])

/-- The values contributed for one key, in stream order. -/
def keyed_values {κ β : Type} [DecidableEq κ] (l : List (κ × β)) (k : κ) :
    List β :=
  (l.filter (fun q => q.1 = k)).map Prod.snd

/-- Lookup after a `defaultdict(list)` append. -/
theorem dict_append_lookup {κ β : Type} [DecidableEq κ] :
    ∀ (acc : List (κ × List β)) (k : κ) (v : β) (k' : κ),
      (dict_append acc k v).lookup k' =
        if k' = k then some (((acc.lookup k).getD []) ++ [v])
        else acc.lookup k' := by
  intro acc
  induction acc with
  | nil =>
    intro k v k'
    by_cases h : k' = k
    · simp [dict_append, List.lookup, h]
    · have hb : (k' == k) = false := beq_eq_false_iff_ne.mpr h
      simp [dict_append, List.lookup, hb, h]
  | cons p rest ih =>
    intro k v k'
    obtain ⟨pk, pv⟩ := p
    by_cases hpk : pk = k
    · subst hpk
      by_cases hk' : k' = pk
      · simp [dict_append, List.lookup, hk']
      · have hb : (k' == pk) = false := beq_eq_false_iff_ne.mpr hk'
        simp [dict_append, List.lookup, hb, hk']
    · have hbk : (k == pk) = false :=
        beq_eq_false_iff_ne.mpr (fun h => hpk h.symm)
      by_cases hk' : k' = pk
      · have hne : ¬ k' = k := fun h => hpk (hk'.symm.trans h)
        simp [dict_append, if_neg hpk, List.lookup, hk', hne]
      · have hb : (k' == pk) = false := beq_eq_false_iff_ne.mpr hk'
        simp only [dict_append, if_neg hpk, List.lookup, hb, hbk]
        exact ih k v k'

/-- Lookup after folding a contribution stream into the `defaultdict`. -/
theorem fold_dict_append_lookup {κ β : Type} [DecidableEq κ] [DecidableEq β] :
    ∀ (l : List (κ × β)) (acc : List (κ × List β)) (k : κ),
      (l.foldl (fun acc kv => dict_append acc kv.1 kv.2) acc).lookup k =
        if acc.lookup k = none ∧ keyed_values l k = [] then none
        else some (((acc.lookup k).getD []) ++ keyed_values l k) := by
  intro l
  induction l with
  | nil =>
    intro acc k
    simp only [List.foldl_nil, keyed_values, List.filter_nil, List.map_nil]
    cases h : acc.lookup k <;> simp [h]
  | cons p l ih =>
    intro acc k
    have hkv : keyed_values (p :: l) k =
        (if p.1 = k then [p.2] else []) ++ keyed_values l k := by
      by_cases h : p.1 = k <;> simp [keyed_values, List.filter_cons, h]
    rw [List.foldl_cons, ih, dict_append_lookup]
    by_cases hk : k = p.1
    · have hk' : p.1 = k := hk.symm
      rw [if_pos hk, hkv, if_pos hk']
      cases h : acc.lookup p.1 <;>
        simp [hk, h, List.append_assoc]
    · have hk' : ¬ p.1 = k := fun h => hk h.symm
      rw [if_neg hk, hkv, if_neg hk']
      simp

/-- `dict_append` keeps the key order, appending a fresh key at the end. -/
theorem dict_append_keys {κ β : Type} [DecidableEq κ] :
    ∀ (acc : List (κ × List β)) (k : κ) (v : β),
      (dict_append acc k v).map Prod.fst =
        if k ∈ acc.map Prod.fst then acc.map Prod.fst
        else acc.map Prod.fst ++ [k] := by
  intro acc
  induction acc with
  | nil => intro k v; simp [dict_append]
  | cons p rest ih =>
    intro k v
    obtain ⟨pk, pv⟩ := p
    by_cases hpk : pk = k
    · subst hpk
      simp [dict_append]
    · have hne : ¬ k = pk := fun h => hpk h.symm
      by_cases hmem : k ∈ rest.map Prod.fst <;>
        simp [dict_append, hpk, ih, hmem, hne]

/-- Folding contributions into the `defaultdict` keeps the keys nodup. -/
theorem fold_dict_append_keys_nodup {κ β : Type} [DecidableEq κ] :
    ∀ (l : List (κ × β)) (acc : List (κ × List β)),
      (acc.map Prod.fst).Nodup →
      (((l.foldl (fun acc kv => dict_append acc kv.1 kv.2) acc)).map
        Prod.fst).Nodup := by
  intro l
  induction l with
  | nil => intro acc h; simpa using h
  | cons p l ih =>
    intro acc h
    rw [List.foldl_cons]
    refine ih _ ?_
    rw [dict_append_keys]
    by_cases hmem : p.1 ∈ acc.map Prod.fst
    · simpa [hmem] using h
    · simp [hmem, List.nodup_append, h]

/-- Under nodup keys, association-list membership is lookup success. -/
theorem mem_iff_lookup {κ β : Type} [DecidableEq κ] :
    ∀ {acc : List (κ × β)}, (acc.map Prod.fst).Nodup → ∀ (kv : κ × β),
      kv ∈ acc ↔ acc.lookup kv.1 = some kv.2 := by
  intro acc
  induction acc with
  | nil => intro _ kv; simp [List.lookup]
  | cons p rest ih =>
    intro hnd kv
    obtain ⟨pk, pv⟩ := p
    rw [List.map_cons, List.nodup_cons] at hnd
    by_cases hk : kv.1 = pk
    · rw [List.lookup, beq_iff_eq.mpr hk]
      constructor
      · intro hmem
        rcases List.mem_cons.mp hmem with rfl | hmem'
        · rfl
        · exact absurd (hk ▸ List.mem_map.mpr ⟨kv, hmem', rfl⟩) hnd.1
      · intro hsome
        have : kv = (pk, pv) := by
          obtain ⟨k1, v1⟩ := kv
          simp only at hk hsome
          cases hsome
          simp [hk]
        simp [this]
    · have hb : (kv.1 == pk) = false := beq_eq_false_iff_ne.mpr hk
      rw [List.lookup, hb]
      rw [List.mem_cons, ih hnd.2 kv]
      constructor
      · rintro (rfl | h)
        · exact absurd rfl hk
        · exact h
      · exact Or.inr

/-- A single-instance dataset: one token (id 10, decoding to `A`), one
attribution score 5, label 0. -/
def c7Dataset : TDataset where
  is_dataset := true
  description := "Model: bert\nDataset: imdb\nExplainer: lig"
  rows := [⟨[10], [5], 0⟩]

/-- **C7**: `avg_attribution_stat` accumulates attribution scores keyed by
each token id's decoded string — negated exactly when the row's label index
is 0, which is what `avg_contribs` expresses — and reports the arithmetic
mean of each key's accumulated scores, sorted descending by mean; on a
single-instance dataset whose token occurs once with label 0 and raw
score 5, the reported mean is the sign-adjusted raw score `-5`. -/
theorem C7_avg_attribution (tokenizer_of : String → Tokenizer) (ds : TDataset) :
    (∀ out, avg_attribution_stat tokenizer_of ds = .ok out →
      out.Pairwise (fun a b => b.2 ≤ a.2)
      ∧ ∀ model_id, get_coordinate ds.description "Model" = .ok model_id →
          ∀ p ∈ out,
            keyed_values (avg_contribs (tokenizer_of model_id) ds.rows) p.1 ≠ []
            ∧ p.2 =
              (keyed_values (avg_contribs (tokenizer_of model_id) ds.rows) p.1).sum /
                ((keyed_values (avg_contribs (tokenizer_of model_id) ds.rows)
                  p.1).length : ℚ))
    ∧ avg_attribution_stat demoTokenizerOf c7Dataset = .ok [("A", -5)] := by
  constructor
  · intro out hout
    rw [avg_attribution_stat] at hout
    obtain ⟨mid, hmid, hrest⟩ := except_bind_ok.mp hout
    simp only [Except.ok.injEq] at hrest
    subst hrest
    constructor
    · haveI : IsTotal (String × ℚ) (fun a b => b.2 ≤ a.2) :=
        ⟨fun a b => le_total b.2 a.2⟩
      haveI : IsTrans (String × ℚ) (fun a b => b.2 ≤ a.2) :=
        ⟨fun _ _ _ hab hbc => le_trans hbc hab⟩
      exact List.sorted_insertionSort _ _
    · intro model_id hmid' p hp
      have hmm : mid = model_id := by
        rw [hmid] at hmid'
        exact (Except.ok.inj hmid')
      subst hmm
      have hp' : p ∈ (token_atts (tokenizer_of mid) ds.rows).map
          (fun ksc => (ksc.1, ksc.2.sum / (ksc.2.length : ℚ))) :=
        (List.perm_insertionSort _ _).mem_iff.mp hp
      obtain ⟨ksc, hksc, hpe⟩ := List.mem_map.mp hp'
      have hnd : ((token_atts (tokenizer_of mid) ds.rows).map Prod.fst).Nodup :=
        fold_dict_append_keys_nodup _ [] (by simp)
      have hlk := (mem_iff_lookup hnd ksc).mp hksc
      rw [token_atts] at hlk
      rw [fold_dict_append_lookup] at hlk
      by_cases hempty :
          keyed_values (avg_contribs (tokenizer_of mid) ds.rows) ksc.1 = []
      · rw [if_pos ⟨by simp [List.lookup], hempty⟩] at hlk
        cases hlk
      · rw [if_neg (fun hand => hempty hand.2)] at hlk
        simp only [List.lookup, Option.getD_none, List.nil_append,
          Option.some.injEq] at hlk
        subst hpe
        exact ⟨by simpa [hlk] using hempty, by simp [hlk]⟩
  · have h1 : get_coordinate c7Dataset.description "Model" = .ok "bert" := by
      decide
    have hta : token_atts (demoTokenizerOf "bert") c7Dataset.rows =
        [("A", [-5])] := by decide
    rw [avg_attribution_stat, h1]
    simp only [Bind.bind, Except.bind]
    rw [hta]
    norm_num [sortDescBy, List.insertionSort, List.orderedInsert]

/-- Witness for C7: the single-instance result `[("A", -5)]` is sorted
descending by mean, via the theorem applied at the concrete dataset. -/
theorem C7_avg_attribution_witness :
    ([(("A" : String), (-5 : ℚ))]).Pairwise (fun a b => b.2 ≤ a.2) :=
  (((C7_avg_attribution demoTokenizerOf c7Dataset).1 [("A", -5)]
    (C7_avg_attribution demoTokenizerOf c7Dataset).2)).1

/-- A `dict_set` result consists of old entries and the new binding. -/
theorem mem_dict_set {κ β : Type} [DecidableEq κ] :
    ∀ (acc : List (κ × β)) (k : κ) (v : β) (kv : κ × β),
      kv ∈ dict_set acc k v → kv ∈ acc ∨ kv = (k, v) := by
  intro acc
  induction acc with
  | nil =>
    intro k v kv h
    simp only [dict_set, List.mem_singleton] at h
    exact Or.inr h
  | cons p rest ih =>
    intro k v kv h
    obtain ⟨pk, pv⟩ := p
    by_cases hpk : pk = k
    · simp only [dict_set, if_pos hpk] at h
      rcases List.mem_cons.mp h with rfl | h'
      · exact Or.inr (by rw [hpk])
      · exact Or.inl (List.mem_cons_of_mem _ h')
    · simp only [dict_set, if_neg hpk] at h
      rcases List.mem_cons.mp h with rfl | h'
      · exact Or.inl (List.mem_cons_self _ _)
      · rcases ih k v kv h' with h'' | h''
        · exact Or.inl (List.mem_cons_of_mem _ h'')
        · exact Or.inr h''

/-- Entries of the folded dict come from the initial dict or the stream. -/
theorem mem_fold_dict_set {κ β : Type} [DecidableEq κ] :
    ∀ (l : List (κ × β)) (acc : List (κ × β)) (kv : κ × β),
      kv ∈ l.foldl (fun acc p => dict_set acc p.1 p.2) acc →
      kv ∈ acc ∨ kv ∈ l := by
  intro l
  induction l with
  | nil => intro acc kv h; exact Or.inl (by simpa using h)
  | cons p l ih =>
    intro acc kv h
    rw [List.foldl_cons] at h
    rcases ih _ kv h with h' | h'
    · rcases mem_dict_set acc p.1 p.2 kv h' with h'' | h''
      · exact Or.inl h''
      · exact Or.inr (by simp [h''])
    · exact Or.inr (List.mem_cons_of_mem _ h')

/-- Two single-row datasets over the same token ids `[0, 10, 11]`
(`[CLS] A B`), differing only in the attribution at position 2. -/
def c6DatasetA : TDataset :=
  ⟨true, "Model: bert\nDataset: imdb\nExplainer: lig", [⟨[0, 10, 11], [0, 1, 3], 1⟩]⟩

/-- The second explainer's dataset; see `c6DatasetA`. -/
def c6DatasetB : TDataset :=
  ⟨true, "Model: bert\nDataset: imdb\nExplainer: occ", [⟨[0, 10, 11], [0, 1, 7], 1⟩]⟩

/-- **C6**: the per-row loop keys an entry by (decoded token, decoded
context, position) for exactly the positions whose id is not special, with
`dissim = max − min` of the explainers' scores there; every output entry of
the agreement computation stems from such a row entry (so special positions
never appear); the output is sorted descending by `dissim`; and on the two
demonstration datasets differing only at position 2 the result has exactly
the two non-special positions, with the single nonzero spread
`|3 − 7| = 4` ranked first. -/
theorem C6_explainer_agreement :
    (∀ (tokenizer : Tokenizer) (explainer_names : List String)
      (ids : List Nat) (att_rows : List (List ℚ)) (k ctx : String)
      (idx : Nat) (v : DissimEntry),
      ((k, ctx, idx), v) ∈ row_entries tokenizer explainer_names ids att_rows ↔
        ∃ id atts, (py_zip_star ids att_rows)[idx]? = some (id, atts) ∧
          id ∉ tokenizer.all_special_ids ∧ k = tokenizer.decode1 id ∧
          ctx = tokenizer.decode_skip_special ids ∧
          v = ⟨pyMax atts - pyMin atts, explainer_names.zip atts⟩)
    ∧ (∀ (tokenizer : Tokenizer) (explainer_names : List String)
        (ids_rows : List (List Nat)) (att_tables : List (List (List ℚ)))
        (e : (String × String × Nat) × DissimEntry),
        e ∈ agreement_core tokenizer explainer_names ids_rows att_tables →
          ∃ r ∈ py_zip_star ids_rows att_tables,
            e ∈ row_entries tokenizer explainer_names r.1 r.2)
    ∧ (∀ (tokenizer : Tokenizer) (explainer_names : List String)
        (ids_rows : List (List Nat)) (att_tables : List (List (List ℚ))),
        (agreement_core tokenizer explainer_names ids_rows att_tables).Pairwise
          (fun a b => b.2.dissim ≤ a.2.dissim))
    ∧ explainer_agreement_stat demoTokenizerOf [c6DatasetA, c6DatasetB] =
        .ok [(("B", "A B", 2), ⟨4, [("lig", 3), ("occ", 7)]⟩),
             (("A", "A B", 1), ⟨0, [("lig", 1), ("occ", 1)]⟩)]
    ∧ |(3 : ℚ) - 7| = 4 := by
  refine ⟨?_, ?_, ?_, ?_, by norm_num⟩
  · intro tokenizer explainer_names ids att_rows k ctx idx v
    simp only [row_entries]
    constructor
    · intro h
      obtain ⟨p, hp, heq⟩ := List.mem_map.mp h
      obtain ⟨hpe, hps⟩ := List.mem_filter.mp hp
      obtain ⟨i, id, atts⟩ := p
      simp only [Prod.mk.injEq] at heq
      obtain ⟨⟨hk, hctx, hidx⟩, hv⟩ := heq
      subst hidx
      refine ⟨id, atts, List.mem_enum_iff_getElem?.mp hpe, ?_, hk.symm,
        hctx.symm, hv.symm⟩
      simpa using hps
    · rintro ⟨id, atts, hget, hspec, rfl, rfl, rfl⟩
      exact List.mem_map.mpr ⟨(idx, (id, atts)),
        List.mem_filter.mpr ⟨List.mem_enum_iff_getElem?.mpr hget,
          by simpa using hspec⟩, rfl⟩
  · intro tokenizer explainer_names ids_rows att_tables e he
    simp only [agreement_core] at he
    have he' := (List.perm_insertionSort _ _).mem_iff.mp he
    rcases mem_fold_dict_set _ [] e he' with h | h
    · simp at h
    · obtain ⟨r, hr, hre⟩ := List.mem_flatMap.mp h
      exact ⟨r, hr, hre⟩
  · intro tokenizer explainer_names ids_rows att_tables
    haveI : IsTotal ((String × String × Nat) × DissimEntry)
        (fun a b => b.2.dissim ≤ a.2.dissim) :=
      ⟨fun a b => le_total b.2.dissim a.2.dissim⟩
    haveI : IsTrans ((String × String × Nat) × DissimEntry)
        (fun a b => b.2.dissim ≤ a.2.dissim) :=
      ⟨fun _ _ _ hab hbc => le_trans hbc hab⟩
    exact List.sorted_insertionSort _ _
  · have hOK : explainer_agreement_stat demoTokenizerOf [c6DatasetA, c6DatasetB] =
        .ok (agreement_core (demoTokenizerOf "bert") ["lig", "occ"]
          [[0, 10, 11]] [[[0, 1, 3]], [[0, 1, 7]]]) := by rfl
    have hentries : (py_zip_star [[0, 10, 11]]
          [[[0, 1, 3]], [[(0 : ℚ), 1, 7]]]).flatMap
          (fun r => row_entries (demoTokenizerOf "bert") ["lig", "occ"] r.1 r.2) =
        [(("A", "A B", 1),
          ⟨pyMax [1, 1] - pyMin [1, 1], [("lig", 1), ("occ", 1)]⟩),
         (("B", "A B", 2),
          ⟨pyMax [3, 7] - pyMin [3, 7], [("lig", 3), ("occ", 7)]⟩)] := by rfl
    have hd0 : pyMax [(1 : ℚ), 1] - pyMin [1, 1] = (0 : ℚ) := by
      norm_num [pyMax, pyMin]
    have hd4 : pyMax [(3 : ℚ), 7] - pyMin [3, 7] = (4 : ℚ) := by
      norm_num [pyMax, pyMin, max_def, min_def]
    rw [hOK, agreement_core, hentries, hd0, hd4]
    decide

/-- Witness for C6: position 2 (id 11, not special) produces the keyed
entry with spread `max − min` of the two explainers' scores `3` and `7`. -/
theorem C6_explainer_agreement_witness :
    (("B", "A B", 2),
      (⟨pyMax [3, 7] - pyMin [3, 7], [("lig", 3), ("occ", 7)]⟩ : DissimEntry)) ∈
      row_entries (demoTokenizerOf "bert") ["lig", "occ"] [0, 10, 11]
        [[0, 1, 3], [0, 1, 7]] :=
  (C6_explainer_agreement.1 (demoTokenizerOf "bert") ["lig", "occ"] [0, 10, 11]
    [[0, 1, 3], [0, 1, 7]] "B" "A B" 2 _).mpr
    ⟨11, [3, 7], by decide, by decide, by decide, by decide, rfl⟩

/-! ## Claim C8: the preconditions of `explainer_agreement_stat` -/

/-- `get_coordinate` only fails with its assertions. -/
theorem get_coordinate_error {d c : String} {e : PyError}
    (h : get_coordinate d c = .error e) : e = .assertionError [] := by
  simp only [get_coordinate] at h
  split_ifs at h <;> exact (Except.error.inj h).symm

/-- The per-dataset step of `explainer_agreement_stat` only fails with an
assertion: either the type check or `get_coordinate`'s assertions. -/
theorem explainer_atts_entry_error {td : TDataset} {e : PyError}
    (h : explainer_atts_entry td = .error e) : e = .assertionError [] := by
  rw [explainer_atts_entry] at h
  by_cases htd : td.is_dataset
  · rw [if_pos htd] at h
    cases hc : get_coordinate td.description "Explainer" with
    | ok s =>
      rw [hc] at h
      simp [Bind.bind, Except.bind] at h
    | error e' =>
      rw [hc] at h
      have he : e' = e := by simpa [Bind.bind, Except.bind] using h
      exact he ▸ get_coordinate_error hc
  · rw [if_neg htd] at h
    exact (Except.error.inj h).symm

/-- A dataset like `c6DatasetB` but over different token ids than
`c6DatasetA`; agreement raises no error about the disagreement. -/
def c8DatasetB : TDataset :=
  ⟨true, "Model: bert\nDataset: imdb\nExplainer: occ", [⟨[99, 98], [5, 5], 1⟩]⟩

/-- **C8**: `explainer_agreement_stat` fails with an assertion-style failure
— before any result is computed — when fewer than 2 datasets are supplied
or some supplied element is not a `Dataset`; beyond these assertions there
is no defensive check: two datasets disagreeing on their token-id sequences
still produce a result. -/
theorem C8_agreement_preconditions (tokenizer_of : String → Tokenizer)
    (tds : List TDataset) :
    (tds.length < 2 →
      explainer_agreement_stat tokenizer_of tds = .error (.assertionError []))
    ∧ ((∃ td ∈ tds, td.is_dataset = false) →
        explainer_agreement_stat tokenizer_of tds = .error (.assertionError []))
    ∧ c6DatasetA.rows.map (fun r => r.input_ids) ≠
        c8DatasetB.rows.map (fun r => r.input_ids)
    ∧ (explainer_agreement_stat demoTokenizerOf [c6DatasetA, c8DatasetB]).isOk
        = true := by
  refine ⟨?_, ?_, by decide, by decide⟩
  · intro hlen
    match tds, hlen with
    | [], _ => rfl
    | [a], _ => rfl
  · rintro ⟨td, htd, hbad⟩
    match tds, htd with
    | [a], htd =>
      rfl
    | a :: b :: t', htd =>
      have hbadElem : explainer_atts_entry td = .error (.assertionError []) := by
        rw [explainer_atts_entry, if_neg (by simp [hbad])]
      obtain ⟨k, hk⟩ : ∃ k, explainer_agreement_stat tokenizer_of (a :: b :: t') =
          (a :: b :: t').mapM explainer_atts_entry >>= k := ⟨_, rfl⟩
      cases hm : (a :: b :: t').mapM explainer_atts_entry with
      | ok pairs =>
        exfalso
        obtain ⟨x, _, hfx⟩ := forall₂_exists_of_mem_left (mapM_ok_forall₂ hm) td htd
        rw [hbadElem] at hfx
        cases hfx
      | error e =>
        have he : e = .assertionError [] := by
          obtain ⟨x, _, hfx⟩ := exceptMapM_error hm
          exact explainer_atts_entry_error hfx
        rw [hk, hm, he]
        rfl

/-- Witness for C8: the empty dataset list fails the minimum-count
assertion. -/
theorem C8_agreement_preconditions_witness :
    explainer_agreement_stat demoTokenizerOf [] = .error (.assertionError []) :=
  (C8_agreement_preconditions demoTokenizerOf []).1 (by decide)
